import Mathlib

/-!
# Verification of `github_release_downloader.py`

A shallow embedding of the release-download pipeline of
`src/github_release_downloader.py` (the UI-click companion script is
stateless and out of scope).  Pure helpers of the script become Lean
functions; the filesystem, the persisted manifest file and the network
are passed explicitly as state/oracles; side effects on the host task
scheduler are recorded as event lists.
-/

/-! ## String helpers

The Python code works with `str.lower()`, the `in` substring operator,
`str.endswith` and `os.path.splitext`.  We model strings through their
character lists so that every operation reduces in the kernel. -/

/-- Model of Python `str.lower()` (ASCII case folding suffices for the
strings this program manipulates). -/
def lowerStr (s : String) : String := ⟨s.data.map Char.toLower⟩

/-- Models Python `needle in hay` on character lists: `needle` occurs
contiguously inside `hay`. -/
def charsContains (hay needle : List Char) : Bool :=
  match hay with
  | [] => needle.isPrefixOf []
  | _ :: t => needle.isPrefixOf hay || charsContains t needle

/-- Model of the Python substring test `needle in hay`. -/
def containsSub (hay needle : String) : Bool := charsContains hay.data needle.data

/-- Model of Python `s.endswith(suffix)`. -/
def endsWithStr (s suffix : String) : Bool := suffix.data.isSuffixOf s.data

/-- Model of `os.path.splitext(p)[0]` for a plain file name (no directory
separators): split at the last dot, unless every character before that
dot is itself a dot (the CPython leading-dot rule). -/
def splitext_stem (p : String) : String :=
  let cs := p.data
  let dots := (List.range cs.length).filter (fun i => cs.getD i ' ' == '.')
  match dots.getLast? with
  | none => p
  | some i =>
      if (List.range i).any (fun j => !(cs.getD j ' ' == '.')) then ⟨cs.take i⟩ else p

/-! ## Data model

JSON values of interest (release metadata and the persisted manifest)
are embedded as structures; the `files` member of the manifest is a
Python dict with string keys, embedded as an insertion-ordered
association list updated by `setFile` the way dict assignment behaves
(overwrite in place when the key is present, append otherwise). -/

/-- One entry of the `assets` array of a release. -/
structure Asset where
  name : String
  browser_download_url : String
deriving DecidableEq

/-- The release-metadata document (`tag_name` plus `assets`). -/
structure Release where
  tag_name : String
  assets : List Asset
deriving DecidableEq

/-- One value of the `files` mapping of the manifest. -/
structure FileEntry where
  release : String
  downloaded : String
deriving DecidableEq

/-- The persisted manifest document. -/
structure Manifest where
  downloaded_releases : List String
  files : List (String × FileEntry)
deriving DecidableEq

/-- The empty-but-valid manifest: no downloaded releases, no files. -/
def emptyManifest : Manifest := { downloaded_releases := [], files := [] }

/-- Python dict assignment `files[k] = v`: overwrite every pair stored
under `k` in place when `k` is already a key, append `(k, v)` otherwise. -/
def setFile (files : List (String × FileEntry)) (k : String) (v : FileEntry) :
    List (String × FileEntry) :=
  if files.any (fun p => p.1 == k) then
    files.map (fun p => if p.1 == k then (k, v) else p)
  else files ++ [(k, v)]

/-- State of the manifest file on disk: missing, present but not valid
JSON (with its raw content), or present and parsed. -/
inductive ManifestFile where
  | absent
  | invalid (raw : String)
  | parsed (m : Manifest)
deriving DecidableEq

/-- Embeds `load_manifest` (lines 70-80): a missing file or a file whose
content fails to parse yields the empty manifest; the `except` clause
swallows the parse error, so the function is total (never raises). -/
def load_manifest : ManifestFile → Manifest
  | .absent => emptyManifest
  | .invalid _ => emptyManifest
  | .parsed m => m

/-! ## Schedule resolver -/

/-- Embeds `load_keyword_mappings` (lines 94-113).  Python 3.7+ dicts
iterate in insertion order, so the dict literal is an ordered list. -/
def load_keyword_mappings : List (String × String) :=
  [("host", "At Logon"),
   ("drivers", "Weekly (Sunday 3 AM)"),
   ("nvme", "Once (1 min after install)"),
   ("telemetry", "Daily (12:00 PM)"),
   ("power", "At System Startup (Boot)"),
   ("vga", "At Logon"),
   ("chipset", "Monthly (1st of Month)"),
   ("audio", "At Logon"),
   ("wifi", "Every 4 Hours"),
   ("thermal", "Every 1 Hour"),
   ("security", "Daily (4:00 AM)"),
   ("bridge", "At System Startup"),
   ("usb", "Daily (6:00 PM)"),
   ("soc", "Weekly (Saturday 11 PM)"),
   ("broker", "Weekly (Monday 8 AM)")]

/-- Embeds the keyword-matching loop of `main` (lines 401-408): lower
the filename, scan the table in order, keep the first description whose
keyword occurs in the filename; `none` when no keyword matches. -/
def find_schedule (filename : String) : Option String :=
  load_keyword_mappings.findSome?
    (fun p => if containsSub (lowerStr filename) p.1 then some p.2 else none)

/-- Two-digit decimal rendering used for `%H:%M`. -/
def two_digits (n : Nat) : String := (if n < 10 then "0" else "") ++ toString n

/-- Renders a time of day (minutes since midnight) in `%H:%M` form. -/
def format_hm (minutesOfDay : Nat) : String :=
  two_digits (minutesOfDay / 60 % 24) ++ ":" ++ two_digits (minutesOfDay % 60)

/-- Embeds `parse_schedule_to_cmd` (lines 116-153).  `now` is the current
time in minutes since midnight, read only by the `once` branch
(`datetime.now() + timedelta(minutes=1)`). -/
def parse_schedule_to_cmd (now : Nat) (schedule : String) : List String :=
  let s := lowerStr schedule
  if containsSub s "at logon" then ["/SC", "ONLOGON"]
  else if containsSub s "at system startup" || containsSub s "boot" then
    ["/SC", "ONSYSTEMSTART"]
  else if containsSub s "weekly" then
    if containsSub s "sunday" then ["/SC", "WEEKLY", "/D", "SUN", "/ST", "03:00"]
    else if containsSub s "saturday" then ["/SC", "WEEKLY", "/D", "SAT", "/ST", "23:00"]
    else if containsSub s "monday" then ["/SC", "WEEKLY", "/D", "MON", "/ST", "08:00"]
    else ["/SC", "WEEKLY", "/ST", "08:00"]
  else if containsSub s "monthly" then ["/SC", "MONTHLY", "/D", "1", "/ST", "08:00"]
  else if containsSub s "every 4 hours" then ["/SC", "HOURLY", "/MO", "4"]
  else if containsSub s "every 1 hour" || containsSub s "every hour" then ["/SC", "HOURLY"]
  else if containsSub s "once" then ["/SC", "ONCE", "/ST", format_hm (now + 1)]
  else if containsSub s "12:00 pm" || containsSub s "12:00pm" then
    ["/SC", "DAILY", "/ST", "12:00"]
  else if containsSub s "4:00 am" || containsSub s "4:00am" then
    ["/SC", "DAILY", "/ST", "04:00"]
  else if containsSub s "6:00 pm" || containsSub s "6:00pm" then
    ["/SC", "DAILY", "/ST", "18:00"]
  else ["/SC", "DAILY", "/ST", "08:00"]

/-- True when the string hits at least one of the text patterns that
`parse_schedule_to_cmd` recognizes (in source order); its negation is
exactly the fall-through to the default daily-08:00 arguments. -/
def schedule_pattern_hit (s : String) : Bool :=
  containsSub s "at logon" || containsSub s "at system startup" || containsSub s "boot" ||
  containsSub s "weekly" || containsSub s "monthly" || containsSub s "every 4 hours" ||
  containsSub s "every 1 hour" || containsSub s "every hour" || containsSub s "once" ||
  containsSub s "12:00 pm" || containsSub s "12:00pm" || containsSub s "4:00 am" ||
  containsSub s "4:00am" || containsSub s "6:00 pm" || containsSub s "6:00pm"

/-! ## Secure fetcher

The network is an oracle giving the outcome of each underlying attempt:
the verified-context attempt and (when reached) the unverified retry.
`transportErr` is a `urllib.error.URLError`/`ssl.SSLError`; `otherErr`
is any other exception (e.g. a JSON or filesystem error), which the
outer handler turns into a failure without a retry. -/

/-- Outcome of one underlying transport attempt carrying payload `α`. -/
inductive Attempt (α : Type) where
  | ok (v : α)
  | transportErr
  | otherErr
deriving DecidableEq

/-- Embeds `fetch_latest_release` (lines 156-195) over the outcomes of
its two possible attempts.  Returns the fetched document (or `none`)
together with the number of underlying attempts made. -/
def fetch_latest_release (first second : Attempt Release) : Option Release × Nat :=
  match first with
  | .ok v => (some v, 1)
  | .transportErr =>
      match second with
      | .ok v => (some v, 2)
      | _ => (none, 2)
  | .otherErr => (none, 1)

/-- Embeds `download_file` (lines 198-234) over the outcomes of its two
possible attempts (`.ok ()` means the file was retrieved to the
destination).  Returns the boolean result and the attempt count. -/
def download_file (first second : Attempt Unit) : Bool × Nat :=
  match first with
  | .ok _ => (true, 1)
  | .transportErr =>
      match second with
      | .ok _ => (true, 2)
      | _ => (false, 2)
  | .otherErr => (false, 1)

/-! ## Release pipeline / orchestrator

The filesystem of the storage folder is the list of file names present
in it; a download oracle `String → Bool` gives the composite result of
`download_file` for each URL (success creates the destination file);
`t` is the ISO timestamp string `datetime.now().isoformat()` produces
when manifest entries are recorded.  Calls to `create_scheduled_task`
are recorded as `(asset name, task name)` events. -/

/-- How the per-asset loop classified one qualifying asset. -/
inductive Outcome where
  | skippedO
  | downloadedO
  | failedO
deriving DecidableEq

/-- State threaded through the per-asset loop of `main` (lines 396-425):
the storage-folder contents, the three counters, the processing trace
and the scheduled-task installation events. -/
structure RunState where
  fs : List String
  successful : Nat
  skipped : Nat
  failed : Nat
  trace : List (Asset × Outcome)
  installs : List (String × String)
deriving DecidableEq

/-- The task name `f"SystemUpdate_{os.path.splitext(filename)[0]}"`. -/
def task_name_of (filename : String) : String :=
  "SystemUpdate_" ++ splitext_stem filename

/-- Embeds one iteration of the download loop of `main` (lines 396-425):
skip (and still install the task) when the destination exists, else
download; success installs the task, failure only increments `failed`. -/
def process_asset (oracle : String → Bool) (st : RunState) (a : Asset) : RunState :=
  if st.fs.contains a.name then
    { st with skipped := st.skipped + 1,
              trace := st.trace ++ [(a, Outcome.skippedO)],
              installs := st.installs ++ [(a.name, task_name_of a.name)] }
  else if oracle a.browser_download_url then
    { st with fs := st.fs ++ [a.name],
              successful := st.successful + 1,
              trace := st.trace ++ [(a, Outcome.downloadedO)],
              installs := st.installs ++ [(a.name, task_name_of a.name)] }
  else
    { st with failed := st.failed + 1,
              trace := st.trace ++ [(a, Outcome.failedO)] }

/-- The case-insensitive executable filter of `main` (line 378). -/
def exe_assets (assets : List Asset) : List Asset :=
  assets.filter (fun a => endsWithStr (lowerStr a.name) ".exe")

/-- The manifest update of `main` (lines 428-436): append the tag to
`downloaded_releases` unless already present, and record an entry with
the current tag and timestamp for every qualifying asset. -/
def update_manifest (m : Manifest) (tag : String) (assets : List Asset) (t : String) :
    Manifest :=
  { downloaded_releases :=
      if m.downloaded_releases.contains tag then m.downloaded_releases
      else m.downloaded_releases ++ [tag],
    files := assets.foldl (fun fs a => setFile fs a.name ⟨tag, t⟩) m.files }

/-- Result of one run of `main`: its boolean return value, the reported
counters, and the final storage folder, manifest file, trace and
install events. -/
structure RunResult where
  outcome : Bool
  successful : Nat
  skipped : Nat
  failed : Nat
  fs : List String
  manifestFile : ManifestFile
  trace : List (Asset × Outcome)
  installs : List (String × String)
deriving DecidableEq

/-- Embeds the `main` function (lines 349-444); named `main_run` because Lean reserves `main` for entry points.  `rel` is the result of
`fetch_latest_release` (`none` on metadata-fetch failure), `fs0` the
initial storage folder, `mf0` the manifest file on disk, `oracle` the
composite download result per URL and `t` the recording timestamp.
The self-scheduling call (line 355) touches only the host scheduler and
is independent of everything below, so it is not part of the state. -/
def main_run (rel : Option Release) (fs0 : List String) (mf0 : ManifestFile)
    (oracle : String → Bool) (t : String) : RunResult :=
  match rel with
  | none =>
      { outcome := false, successful := 0, skipped := 0, failed := 0,
        fs := fs0, manifestFile := mf0, trace := [], installs := [] }
  | some info =>
      let tag := info.tag_name
      let exes := exe_assets info.assets
      if exes.isEmpty then
        { outcome := false, successful := 0, skipped := 0, failed := 0,
          fs := fs0, manifestFile := mf0, trace := [], installs := [] }
      else
        let st := exes.foldl (process_asset oracle)
          { fs := fs0, successful := 0, skipped := 0, failed := 0,
            trace := [], installs := [] }
        let manifest := load_manifest mf0
        let mf1 :=
          if st.successful > 0 || st.skipped > 0 then
            ManifestFile.parsed (update_manifest manifest tag exes t)
          else mf0
        { outcome := st.failed == 0, successful := st.successful,
          skipped := st.skipped, failed := st.failed,
          fs := st.fs, manifestFile := mf1, trace := st.trace,
          installs := st.installs }

/-- Embeds the entry point (lines 447-448): `main()` is called as a bare
expression statement, its boolean return value is discarded, and the
interpreter then exits normally, so the process exit status is 0
whatever the run reported. -/
def script_exit (_mainResult : Bool) : Nat := 0

/-- Runs the pipeline twice in succession against the same release,
the second run starting from the storage folder and manifest file the
first run left behind. -/
def run_twice (rel : Release) (fs0 : List String) (mf0 : ManifestFile)
    (oracle : String → Bool) (t1 t2 : String) : RunResult × RunResult :=
  (main_run (some rel) fs0 mf0 oracle t1,
   main_run (some rel) (main_run (some rel) fs0 mf0 oracle t1).fs
     (main_run (some rel) fs0 mf0 oracle t1).manifestFile oracle t2)

/-! ## General lemmas about the loop and the manifest update -/

/-- Number of trace entries classified as `o`. -/
def countO (o : Outcome) (tr : List (Asset × Outcome)) : Nat :=
  (tr.filter (fun p => decide (p.2 = o))).length

/-- The install events a trace gives rise to: one per non-failed entry,
in trace order. -/
def installs_of (tr : List (Asset × Outcome)) : List (String × String) :=
  (tr.filter (fun p => decide (p.2 ≠ Outcome.failedO))).map
    (fun p => (p.1.name, task_name_of p.1.name))

/-- Invariant tying a loop state to its trace: the three counters count
the correspondingly classified entries, the install events are exactly
the non-failed entries, and the file of every non-failed entry is present. -/
def StInv (st : RunState) : Prop :=
  st.failed = countO Outcome.failedO st.trace ∧
  st.skipped = countO Outcome.skippedO st.trace ∧
  st.successful = countO Outcome.downloadedO st.trace ∧
  st.installs = installs_of st.trace ∧
  ∀ p ∈ st.trace, p.2 ≠ Outcome.failedO → p.1.name ∈ st.fs

/-- The key `k` is present in the mapping and every pair stored under it
carries the value `v`. -/
def covered (fs : List (String × FileEntry)) (k : String) (v : FileEntry) : Prop :=
  (fs.any (fun p => p.1 == k)) = true ∧ ∀ p ∈ fs, p.1 = k → p.2 = v

/-- The loop state `main` starts its download loop from. -/
def init_state (fs0 : List String) : RunState :=
  { fs := fs0, successful := 0, skipped := 0, failed := 0, trace := [], installs := [] }

/-- The loop state after the download loop of `main` has processed every
qualifying asset. -/
def loop_state (rel : Release) (fs0 : List String) (oracle : String → Bool) : RunState :=
  (exe_assets rel.assets).foldl (process_asset oracle) (init_state fs0)

/-- A two-asset release used as concrete test input: under `mixed_oracle`
the download of the first asset succeeds and that of the second fails. -/
def mixed_release : Release :=
  { tag_name := "v1",
    assets := [{ name := "wifi-tool.exe", browser_download_url := "u-ok" },
               { name := "usb-tool.exe", browser_download_url := "u-bad" }] }

/-- Download oracle succeeding exactly on the URL `u-ok`. -/
def mixed_oracle : String → Bool := fun u => u == "u-ok"

/-- A one-asset release used as concrete test input. -/
def single_release : Release :=
  { tag_name := "v2",
    assets := [{ name := "thermal-fix.exe", browser_download_url := "u1" }] }

theorem findSome_if_eq {α β : Type} (q : α → Bool) (f : α → β) (l : List α) :
    l.findSome? (fun a => if q a then some (f a) else none) =
      (l.filter q).head?.map f := by
  induction l with
  | nil => rfl
  | cons a t ih =>
    by_cases h : q a <;> simp [List.findSome?_cons, List.filter_cons, h, ih]

theorem process_asset_fs_mono (oracle : String → Bool) (st : RunState) (a : Asset)
    (x : String) (hx : x ∈ st.fs) : x ∈ (process_asset oracle st a).fs := by
  unfold process_asset
  split
  · exact hx
  · split
    · exact List.mem_append_left _ hx
    · exact hx

theorem foldl_fs_mono (oracle : String → Bool) (l : List Asset) (st : RunState)
    (x : String) (hx : x ∈ st.fs) :
    x ∈ (l.foldl (process_asset oracle) st).fs := by
  induction l generalizing st with
  | nil => exact hx
  | cons a t ih => exact ih _ (process_asset_fs_mono _ _ _ _ hx)

theorem process_asset_trace_fst (oracle : String → Bool) (st : RunState) (a : Asset) :
    (process_asset oracle st a).trace.map Prod.fst = st.trace.map Prod.fst ++ [a] := by
  unfold process_asset
  split
  · simp
  · split <;> simp

theorem foldl_trace_fst (oracle : String → Bool) (l : List Asset) (st : RunState) :
    ((l.foldl (process_asset oracle) st).trace).map Prod.fst =
      st.trace.map Prod.fst ++ l := by
  induction l generalizing st with
  | nil => simp
  | cons a t ih =>
    rw [List.foldl_cons, ih, process_asset_trace_fst]
    simp

theorem StInv_step (oracle : String → Bool) (st : RunState) (a : Asset)
    (h : StInv st) : StInv (process_asset oracle st a) := by
  obtain ⟨h1, h2, h3, h4, h5⟩ := h
  unfold process_asset
  split
  case isTrue hmem =>
    refine ⟨?_, ?_, ?_, ?_, ?_⟩
    · simpa [countO, List.filter_append] using h1
    · simpa [countO, List.filter_append] using h2
    · simpa [countO, List.filter_append] using h3
    · simp [installs_of, List.filter_append, List.map_append, h4]
    · intro p hp hpo
      rcases List.mem_append.mp hp with hp1 | hp2
      · exact h5 p hp1 hpo
      · simp at hp2
        subst hp2
        simpa using hmem
  case isFalse hmem =>
    split
    case isTrue hdl =>
      refine ⟨?_, ?_, ?_, ?_, ?_⟩
      · simpa [countO, List.filter_append] using h1
      · simpa [countO, List.filter_append] using h2
      · simpa [countO, List.filter_append] using h3
      · simp [installs_of, List.filter_append, List.map_append, h4]
      · intro p hp hpo
        rcases List.mem_append.mp hp with hp1 | hp2
        · exact List.mem_append_left _ (h5 p hp1 hpo)
        · simp at hp2
          subst hp2
          simp
    case isFalse hdl =>
      refine ⟨?_, ?_, ?_, ?_, ?_⟩
      · simpa [countO, List.filter_append] using h1
      · simpa [countO, List.filter_append] using h2
      · simpa [countO, List.filter_append] using h3
      · simp [installs_of, List.filter_append, List.map_append, h4]
      · intro p hp hpo
        rcases List.mem_append.mp hp with hp1 | hp2
        · exact h5 p hp1 hpo
        · simp at hp2
          subst hp2
          simp at hpo

theorem StInv_fold (oracle : String → Bool) (l : List Asset) (st : RunState)
    (h : StInv st) : StInv (l.foldl (process_asset oracle) st) := by
  induction l generalizing st with
  | nil => exact h
  | cons a t ih => exact ih _ (StInv_step _ _ _ h)

theorem StInv_init (fs0 : List String) :
    StInv { fs := fs0, successful := 0, skipped := 0, failed := 0,
            trace := [], installs := [] } := by
  refine ⟨rfl, rfl, rfl, rfl, ?_⟩
  intro p hp
  cases hp

theorem process_asset_skip (oracle : String → Bool) (st : RunState) (a : Asset)
    (hc : st.fs.contains a.name = true) :
    process_asset oracle st a =
      { st with skipped := st.skipped + 1,
                trace := st.trace ++ [(a, Outcome.skippedO)],
                installs := st.installs ++ [(a.name, task_name_of a.name)] } := by
  have hm : a.name ∈ st.fs := by simpa using hc
  simp [process_asset, hm]

theorem process_asset_download (oracle : String → Bool) (st : RunState) (a : Asset)
    (hc : st.fs.contains a.name = false)
    (ho : oracle a.browser_download_url = true) :
    process_asset oracle st a =
      { st with fs := st.fs ++ [a.name],
                successful := st.successful + 1,
                trace := st.trace ++ [(a, Outcome.downloadedO)],
                installs := st.installs ++ [(a.name, task_name_of a.name)] } := by
  have hm : a.name ∉ st.fs := by simpa using hc
  simp [process_asset, hm, ho]

theorem process_asset_fail (oracle : String → Bool) (st : RunState) (a : Asset)
    (hc : st.fs.contains a.name = false)
    (ho : oracle a.browser_download_url = false) :
    process_asset oracle st a =
      { st with failed := st.failed + 1,
                trace := st.trace ++ [(a, Outcome.failedO)] } := by
  have hm : a.name ∉ st.fs := by simpa using hc
  simp [process_asset, hm, ho]

theorem foldl_all_success_counts (oracle : String → Bool) (l : List Asset)
    (st : RunState) (hor : ∀ a ∈ l, oracle a.browser_download_url = true) :
    (l.foldl (process_asset oracle) st).successful +
        (l.foldl (process_asset oracle) st).skipped =
      st.successful + st.skipped + l.length ∧
    (l.foldl (process_asset oracle) st).failed = st.failed := by
  induction l generalizing st with
  | nil => simp
  | cons a t ih =>
    rw [List.foldl_cons]
    have ha : oracle a.browser_download_url = true := hor a (List.mem_cons_self _ _)
    obtain ⟨e1, e2⟩ := ih (process_asset oracle st a)
      (fun x hx => hor x (List.mem_cons_of_mem _ hx))
    by_cases hc : st.fs.contains a.name = true
    · rw [process_asset_skip oracle st a hc] at e1 e2
      rw [process_asset_skip oracle st a hc]
      constructor
      · rw [e1]
        simp only [List.length_cons]
        omega
      · rw [e2]
    · have hc' : st.fs.contains a.name = false := by simpa using hc
      rw [process_asset_download oracle st a hc' ha] at e1 e2
      rw [process_asset_download oracle st a hc' ha]
      constructor
      · rw [e1]
        simp only [List.length_cons]
        omega
      · rw [e2]

theorem foldl_complete (oracle : String → Bool) (l : List Asset) (st : RunState)
    (hor : ∀ a ∈ l, oracle a.browser_download_url = true) :
    ∀ a ∈ l, a.name ∈ (l.foldl (process_asset oracle) st).fs := by
  induction l generalizing st with
  | nil => intro a ha; cases ha
  | cons b t ih =>
    intro a ha
    rw [List.foldl_cons]
    rcases List.mem_cons.mp ha with rfl | hat
    · apply foldl_fs_mono
      unfold process_asset
      split
      case isTrue h => simpa using h
      case isFalse h =>
        rw [hor a (List.mem_cons_self _ _)]
        simp
    · exact ih _ (fun x hx => hor x (List.mem_cons_of_mem _ hx)) a hat

theorem foldl_all_present (oracle : String → Bool) (l : List Asset) (st : RunState)
    (h : ∀ a ∈ l, a.name ∈ st.fs) :
    (l.foldl (process_asset oracle) st).fs = st.fs ∧
    (l.foldl (process_asset oracle) st).successful = st.successful ∧
    (l.foldl (process_asset oracle) st).skipped = st.skipped + l.length ∧
    (l.foldl (process_asset oracle) st).failed = st.failed := by
  induction l generalizing st with
  | nil => simp
  | cons a t ih =>
    rw [List.foldl_cons]
    have ha : st.fs.contains a.name = true := by
      simpa using h a (List.mem_cons_self _ _)
    have hstep : process_asset oracle st a =
        { st with skipped := st.skipped + 1,
                  trace := st.trace ++ [(a, Outcome.skippedO)],
                  installs := st.installs ++ [(a.name, task_name_of a.name)] } := by
      unfold process_asset
      rw [if_pos ha]
    rw [hstep]
    have hrest := ih
      { st with skipped := st.skipped + 1,
                trace := st.trace ++ [(a, Outcome.skippedO)],
                installs := st.installs ++ [(a.name, task_name_of a.name)] }
      (fun x hx => h x (List.mem_cons_of_mem _ hx))
    obtain ⟨e1, e2, e3, e4⟩ := hrest
    refine ⟨e1, e2, ?_, e4⟩
    rw [e3]
    simp only [List.length_cons]
    omega

theorem covered_setFile_self (fs : List (String × FileEntry)) (k : String)
    (v : FileEntry) : covered (setFile fs k v) k v := by
  unfold setFile
  split
  case isTrue hany =>
    constructor
    · simp only [List.any_map, List.any_eq_true] at hany ⊢
      obtain ⟨p, hp, hpk⟩ := hany
      refine ⟨p, hp, ?_⟩
      simp only [Function.comp_apply, hpk]
      simp
    · intro q hq hqk
      simp only [List.mem_map] at hq
      obtain ⟨p, hp, hpq⟩ := hq
      by_cases hpk : p.1 == k
      · rw [if_pos hpk] at hpq
        rw [← hpq]
      · rw [if_neg hpk] at hpq
        subst hpq
        exact absurd (by simp [hqk]) hpk
  case isFalse hany =>
    constructor
    · simp
    · intro q hq hqk
      rcases List.mem_append.mp hq with h1 | h2
      · exact absurd (List.any_eq_true.mpr ⟨q, h1, by simp [hqk]⟩) hany
      · simp at h2
        rw [h2]

theorem covered_setFile_mono (fs : List (String × FileEntry)) (k k' : String)
    (v : FileEntry) (h : covered fs k v) : covered (setFile fs k' v) k v := by
  obtain ⟨h1, h2⟩ := h
  unfold setFile
  split
  case isTrue hany =>
    constructor
    · simp only [List.any_map, List.any_eq_true] at h1 ⊢
      obtain ⟨p, hp, hpk⟩ := h1
      refine ⟨p, hp, ?_⟩
      simp only [Function.comp_apply]
      by_cases hpk' : p.1 == k'
      · rw [if_pos hpk']
        have : p.1 = k := by simpa using hpk
        have : k' = k := by simp at hpk'; rw [← hpk', this]
        simp [this]
      · rw [if_neg hpk']
        exact hpk
    · intro q hq hqk
      simp only [List.mem_map] at hq
      obtain ⟨p, hp, hpq⟩ := hq
      by_cases hpk' : p.1 == k'
      · rw [if_pos hpk'] at hpq
        subst hpq
        rfl
      · rw [if_neg hpk'] at hpq
        subst hpq
        exact h2 p hp hqk
  case isFalse hany =>
    constructor
    · rw [List.any_append, h1]
      simp
    · intro q hq hqk
      rcases List.mem_append.mp hq with hq1 | hq2
      · exact h2 q hq1 hqk
      · simp at hq2
        rw [hq2]

theorem setFile_covered_id (fs : List (String × FileEntry)) (k : String)
    (v : FileEntry) (h : covered fs k v) : setFile fs k v = fs := by
  obtain ⟨h1, h2⟩ := h
  unfold setFile
  rw [if_pos h1]
  have : ∀ p ∈ fs, (if p.1 == k then (k, v) else p) = p := by
    intro p hp
    by_cases hpk : p.1 == k
    · rw [if_pos hpk]
      have hk : p.1 = k := by simpa using hpk
      have hv : p.2 = v := h2 p hp hk
      rw [← hk, ← hv]
    · rw [if_neg hpk]
  rw [List.map_congr_left this]
  exact List.map_id fs

theorem covered_fold (l : List Asset) (fs : List (String × FileEntry))
    (k : String) (v : FileEntry) (h : covered fs k v) :
    covered (l.foldl (fun acc a => setFile acc a.name v) fs) k v := by
  induction l generalizing fs with
  | nil => exact h
  | cons a t ih => exact ih _ (covered_setFile_mono _ _ _ _ h)

theorem fold_covers (l : List Asset) (fs : List (String × FileEntry))
    (v : FileEntry) :
    ∀ a ∈ l, covered (l.foldl (fun acc a => setFile acc a.name v) fs) a.name v := by
  induction l generalizing fs with
  | nil => intro a ha; cases ha
  | cons b t ih =>
    intro a ha
    rw [List.foldl_cons]
    rcases List.mem_cons.mp ha with rfl | hat
    · exact covered_fold _ _ _ _ (covered_setFile_self fs a.name v)
    · exact ih _ a hat

theorem fold_setFile_id (l : List Asset) (fs : List (String × FileEntry))
    (v : FileEntry) (h : ∀ a ∈ l, covered fs a.name v) :
    l.foldl (fun acc a => setFile acc a.name v) fs = fs := by
  induction l with
  | nil => rfl
  | cons b t ih =>
    rw [List.foldl_cons, setFile_covered_id fs b.name v (h b (List.mem_cons_self _ _))]
    exact ih (fun a ha => h a (List.mem_cons_of_mem _ ha))

theorem lookup_of_covered (fs : List (String × FileEntry)) (k : String)
    (v : FileEntry) (h : covered fs k v) : List.lookup k fs = some v := by
  obtain ⟨h1, h2⟩ := h
  induction fs with
  | nil => simp at h1
  | cons p t ih =>
    cases p with
    | mk a b =>
      cases hk : (k == a)
      · simp only [List.lookup, hk]
        apply ih
        · simp only [List.any_cons] at h1
          have : (a == k) = false := by
            simp at hk ⊢
            exact fun e => hk e.symm
          simpa [this] using h1
        · exact fun q hq hqk => h2 q (List.mem_cons_of_mem _ hq) hqk
      · simp only [List.lookup, hk]
        have hka : k = a := by simpa using hk
        have : b = v := h2 (a, b) (List.mem_cons_self _ _) (by rw [hka])
        rw [this]

theorem update_manifest_idem (m : Manifest) (tag : String) (l : List Asset)
    (t : String) :
    update_manifest (update_manifest m tag l t) tag l t =
      update_manifest m tag l t := by
  unfold update_manifest
  have hdr : ∀ dr : List String,
      (if (if dr.contains tag then dr else dr ++ [tag]).contains tag then
         (if dr.contains tag then dr else dr ++ [tag])
       else (if dr.contains tag then dr else dr ++ [tag]) ++ [tag]) =
      (if dr.contains tag then dr else dr ++ [tag]) := by
    intro dr
    have hmem : tag ∈ (if dr.contains tag then dr else dr ++ [tag]) := by
      by_cases h : dr.contains tag = true
      · rw [if_pos h]
        simpa using h
      · have h' : dr.contains tag = false := by simpa using h
        rw [h']
        simp
    rw [if_pos (by simpa using hmem)]
  simp only [hdr]
  have hfiles := fold_setFile_id l
    (l.foldl (fun acc a => setFile acc a.name ⟨tag, t⟩) m.files) ⟨tag, t⟩
    (fold_covers l m.files ⟨tag, t⟩)
  simp only [hfiles]

theorem main_run_none (fs0 : List String) (mf0 : ManifestFile)
    (oracle : String → Bool) (t : String) :
    main_run none fs0 mf0 oracle t =
      { outcome := false, successful := 0, skipped := 0, failed := 0,
        fs := fs0, manifestFile := mf0, trace := [], installs := [] } := rfl

theorem main_run_empty (rel : Release) (fs0 : List String) (mf0 : ManifestFile)
    (oracle : String → Bool) (t : String)
    (hE : (exe_assets rel.assets).isEmpty = true) :
    main_run (some rel) fs0 mf0 oracle t =
      { outcome := false, successful := 0, skipped := 0, failed := 0,
        fs := fs0, manifestFile := mf0, trace := [], installs := [] } := by
  simp [main_run, hE]

theorem main_run_nonempty (rel : Release) (fs0 : List String) (mf0 : ManifestFile)
    (oracle : String → Bool) (t : String)
    (hE : (exe_assets rel.assets).isEmpty = false) :
    main_run (some rel) fs0 mf0 oracle t =
      { outcome := (loop_state rel fs0 oracle).failed == 0,
        successful := (loop_state rel fs0 oracle).successful,
        skipped := (loop_state rel fs0 oracle).skipped,
        failed := (loop_state rel fs0 oracle).failed,
        fs := (loop_state rel fs0 oracle).fs,
        manifestFile :=
          if (loop_state rel fs0 oracle).successful > 0 ||
              (loop_state rel fs0 oracle).skipped > 0 then
            ManifestFile.parsed
              (update_manifest (load_manifest mf0) rel.tag_name
                (exe_assets rel.assets) t)
          else mf0,
        trace := (loop_state rel fs0 oracle).trace,
        installs := (loop_state rel fs0 oracle).installs } := by
  simp [main_run, hE, loop_state, init_state]

theorem length_pos_of_not_isEmpty {α : Type} (l : List α) (h : l.isEmpty = false) :
    0 < l.length := by
  cases l with
  | nil => simp at h
  | cons a t => simp

theorem main_run_all_present (rel : Release) (fs1 : List String) (mf : ManifestFile)
    (oracle : String → Bool) (t : String)
    (hE : (exe_assets rel.assets).isEmpty = false)
    (hcomp : ∀ a ∈ exe_assets rel.assets, a.name ∈ fs1) :
    (main_run (some rel) fs1 mf oracle t).skipped = (exe_assets rel.assets).length ∧
    (main_run (some rel) fs1 mf oracle t).successful = 0 ∧
    (main_run (some rel) fs1 mf oracle t).failed = 0 ∧
    (main_run (some rel) fs1 mf oracle t).manifestFile =
      ManifestFile.parsed
        (update_manifest (load_manifest mf) rel.tag_name (exe_assets rel.assets) t) := by
  have hap := foldl_all_present oracle (exe_assets rel.assets) (init_state fs1)
    (by intro a ha; simpa [init_state] using hcomp a ha)
  obtain ⟨e1, e2, e3, e4⟩ := hap
  have hsk : (loop_state rel fs1 oracle).skipped = (exe_assets rel.assets).length := by
    unfold loop_state
    rw [e3]
    simp [init_state]
  have hsu : (loop_state rel fs1 oracle).successful = 0 := by
    unfold loop_state
    rw [e2]
    simp [init_state]
  have hfl : (loop_state rel fs1 oracle).failed = 0 := by
    unfold loop_state
    rw [e4]
    simp [init_state]
  have hcond : (decide ((loop_state rel fs1 oracle).successful > 0) ||
      decide ((loop_state rel fs1 oracle).skipped > 0)) = true := by
    simp only [Bool.or_eq_true, decide_eq_true_eq]
    right
    rw [hsk]
    exact length_pos_of_not_isEmpty _ hE
  rw [main_run_nonempty rel fs1 mf oracle t hE]
  exact ⟨hsk, hsu, hfl, if_pos hcond⟩

theorem main_run_all_success (rel : Release) (fs0 : List String) (mf0 : ManifestFile)
    (oracle : String → Bool) (t : String)
    (hE : (exe_assets rel.assets).isEmpty = false)
    (hor : ∀ u, oracle u = true) :
    (∀ a ∈ exe_assets rel.assets, a.name ∈ (main_run (some rel) fs0 mf0 oracle t).fs) ∧
    (main_run (some rel) fs0 mf0 oracle t).manifestFile =
      ManifestFile.parsed
        (update_manifest (load_manifest mf0) rel.tag_name (exe_assets rel.assets) t) := by
  have hcnt := foldl_all_success_counts oracle (exe_assets rel.assets) (init_state fs0)
    (fun a _ => hor _)
  obtain ⟨e1, e2⟩ := hcnt
  have hsum : (loop_state rel fs0 oracle).successful + (loop_state rel fs0 oracle).skipped =
      (exe_assets rel.assets).length := by
    unfold loop_state
    rw [e1]
    simp [init_state]
  have hcond : (decide ((loop_state rel fs0 oracle).successful > 0) ||
      decide ((loop_state rel fs0 oracle).skipped > 0)) = true := by
    simp only [Bool.or_eq_true, decide_eq_true_eq]
    have := length_pos_of_not_isEmpty _ hE
    omega
  have hcomp := foldl_complete oracle (exe_assets rel.assets) (init_state fs0)
    (fun a _ => hor _)
  rw [main_run_nonempty rel fs0 mf0 oracle t hE]
  constructor
  · intro a ha
    exact hcomp a ha
  · exact if_pos hcond

/-! ## Claims -/

/-- C3: for every filename containing (case-insensitively) more than one
keyword of the fixed 15-entry table, schedule resolution returns the
description of the keyword listed first in the fixed table order,
regardless of positions inside the filename — in particular a filename
containing both "usb" and "wifi" resolves to "Every 4 Hours" (the wifi
entry); a filename containing no keyword yields no descriptor.  Stated
as: the result is the description of the head of the table filtered to
the matching keywords (hence `none` when no keyword matches). -/
theorem C3_keyword_precedence (name : String) :
    find_schedule name =
      ((load_keyword_mappings.filter
          (fun p => containsSub (lowerStr name) p.1)).head?).map Prod.snd ∧
    find_schedule "usb_wifi.exe" = some "Every 4 Hours" ∧
    find_schedule "readme.txt" = none := by
  refine ⟨?_, by decide, by decide⟩
  exact findSome_if_eq (fun p => containsSub (lowerStr name) p.1) Prod.snd
    load_keyword_mappings

/-- C5: `parse_schedule_to_cmd` on "Weekly (Sunday 3 AM)" always returns
the weekly/Sunday/03:00 argument form, for every input matching none of
the recognized patterns it returns the default daily 08:00 form, and the
patterns are tried in the fixed source order with the first match
winning (witnessed by "Weekly (boot)", where the boot pattern, checked
before the weekly one, wins). -/
theorem C5_schedule_translation (now : Nat) (schedule : String)
    (h : schedule_pattern_hit (lowerStr schedule) = false) :
    parse_schedule_to_cmd now "Weekly (Sunday 3 AM)" =
      ["/SC", "WEEKLY", "/D", "SUN", "/ST", "03:00"] ∧
    parse_schedule_to_cmd now "Weekly (boot)" = ["/SC", "ONSYSTEMSTART"] ∧
    parse_schedule_to_cmd now schedule = ["/SC", "DAILY", "/ST", "08:00"] := by
  refine ⟨rfl, rfl, ?_⟩
  simp only [schedule_pattern_hit, Bool.or_eq_false_iff] at h
  obtain ⟨⟨⟨⟨⟨⟨⟨⟨⟨⟨⟨⟨⟨⟨h1, h2⟩, h3⟩, h4⟩, h5⟩, h6⟩, h7⟩, h8⟩, h9⟩, h10⟩,
    h11⟩, h12⟩, h13⟩, h14⟩, h15⟩ := h
  unfold parse_schedule_to_cmd
  simp [h1, h2, h3, h4, h5, h6, h7, h8, h9, h10, h11, h12, h13, h14, h15]

/-- Witness for C5 at the concrete non-matching description "never". -/
theorem C5_schedule_translation_witness :
    schedule_pattern_hit (lowerStr "never") = false ∧
    (parse_schedule_to_cmd 0 "Weekly (Sunday 3 AM)" =
        ["/SC", "WEEKLY", "/D", "SUN", "/ST", "03:00"] ∧
      parse_schedule_to_cmd 0 "Weekly (boot)" = ["/SC", "ONSYSTEMSTART"] ∧
      parse_schedule_to_cmd 0 "never" = ["/SC", "DAILY", "/ST", "08:00"]) :=
  ⟨by decide, C5_schedule_translation 0 "never" (by decide)⟩

/-- C4: for both the metadata fetch and the file download, the verified
attempt comes first; success there means one attempt; a transport or
certificate failure of the first attempt triggers exactly one retry with
the non-verifying context (two attempts, success iff the retry
succeeds); a failing retry reports `none`/`false` without raising; and
no operation ever makes more than two underlying attempts. -/
theorem C4_fetch_fallback (d d2 : Release) (s : Attempt Release) (u : Attempt Unit) :
    fetch_latest_release (Attempt.ok d) s = (some d, 1) ∧
    fetch_latest_release Attempt.transportErr (Attempt.ok d2) = (some d2, 2) ∧
    fetch_latest_release Attempt.transportErr Attempt.transportErr = (none, 2) ∧
    fetch_latest_release Attempt.transportErr Attempt.otherErr = (none, 2) ∧
    download_file (Attempt.ok ()) u = (true, 1) ∧
    download_file Attempt.transportErr (Attempt.ok ()) = (true, 2) ∧
    download_file Attempt.transportErr Attempt.transportErr = (false, 2) ∧
    download_file Attempt.transportErr Attempt.otherErr = (false, 2) ∧
    (∀ f g : Attempt Release, (fetch_latest_release f g).2 ≤ 2) ∧
    (∀ f g : Attempt Unit, (download_file f g).2 ≤ 2) := by
  refine ⟨rfl, rfl, rfl, rfl, rfl, rfl, rfl, rfl, ?_, ?_⟩
  · intro f g
    cases f <;> cases g <;> simp [fetch_latest_release]
  · intro f g
    cases f <;> cases g <;> simp [download_file]

/-- C8: when the manifest file is absent or its content fails to parse,
`load_manifest` returns the empty-but-valid manifest and, being a total
function over every file state, never raises. -/
theorem C8_manifest_resilience (raw : String) :
    load_manifest ManifestFile.absent = { downloaded_releases := [], files := [] } ∧
    load_manifest (ManifestFile.invalid raw) = { downloaded_releases := [], files := [] } :=
  ⟨rfl, rfl⟩

/-- C6: the run outcome is false when the metadata fetch fails, false
when the case-insensitive `.exe` filter leaves no qualifying assets, and
otherwise true exactly when `failed == 0` (so an all-skipped run
succeeds). -/
theorem C6_outcome (rel : Release) (fs0 : List String) (mf0 : ManifestFile)
    (oracle : String → Bool) (t : String) :
    (main_run none fs0 mf0 oracle t).outcome = false ∧
    (main_run (some rel) fs0 mf0 oracle t).outcome =
      (!(exe_assets rel.assets).isEmpty &&
        ((main_run (some rel) fs0 mf0 oracle t).failed == 0)) := by
  refine ⟨rfl, ?_⟩
  by_cases hE : (exe_assets rel.assets).isEmpty = true
  · rw [main_run_empty rel fs0 mf0 oracle t hE, hE]
    rfl
  · have hE' : (exe_assets rel.assets).isEmpty = false := by simpa using hE
    rw [main_run_nonempty rel fs0 mf0 oracle t hE', hE']
    rfl

/-- C7 counterexample: at a concrete failing run (metadata fetch failed,
outcome false) the process exit status is still 0, refuting "non-zero
whenever the run reported Failure". -/
theorem C7_exit_status_cex :
    (main_run none [] ManifestFile.absent (fun _ => true) "T").outcome = false ∧
    script_exit ((main_run none [] ManifestFile.absent (fun _ => true) "T").outcome) = 0 :=
  ⟨rfl, rfl⟩

/-- C7 amended: the entry point discards the boolean returned by the
orchestrator, so the process exit status is 0 for every run, successful
or not. -/
theorem C7_exit_status_amended (rel : Option Release) (fs0 : List String)
    (mf0 : ManifestFile) (oracle : String → Bool) (t : String) :
    script_exit ((main_run rel fs0 mf0 oracle t).outcome) = 0 := rfl

/-- C9: errors are local — the trace processes exactly the qualifying
assets in listing order (no failure aborts the loop), `failed` counts
exactly the trace entries classified failed, the other counters count
their classes, and the install events are exactly the non-failed
entries (so no task is installed for a failed download). -/
theorem C9_error_locality (rel : Release) (fs0 : List String) (mf0 : ManifestFile)
    (oracle : String → Bool) (t : String) :
    ((main_run (some rel) fs0 mf0 oracle t).trace).map Prod.fst = exe_assets rel.assets ∧
    (main_run (some rel) fs0 mf0 oracle t).failed =
      countO Outcome.failedO (main_run (some rel) fs0 mf0 oracle t).trace ∧
    (main_run (some rel) fs0 mf0 oracle t).skipped =
      countO Outcome.skippedO (main_run (some rel) fs0 mf0 oracle t).trace ∧
    (main_run (some rel) fs0 mf0 oracle t).successful =
      countO Outcome.downloadedO (main_run (some rel) fs0 mf0 oracle t).trace ∧
    (main_run (some rel) fs0 mf0 oracle t).installs =
      installs_of (main_run (some rel) fs0 mf0 oracle t).trace := by
  by_cases hE : (exe_assets rel.assets).isEmpty = true
  · have hnil : exe_assets rel.assets = [] := by simpa using hE
    rw [main_run_empty rel fs0 mf0 oracle t hE]
    simp [hnil, countO, installs_of]
  · have hE' : (exe_assets rel.assets).isEmpty = false := by simpa using hE
    rw [main_run_nonempty rel fs0 mf0 oracle t hE']
    have hInv := StInv_fold oracle (exe_assets rel.assets) (init_state fs0) (StInv_init fs0)
    obtain ⟨i1, i2, i3, i4, i5⟩ := hInv
    have htr := foldl_trace_fst oracle (exe_assets rel.assets) (init_state fs0)
    refine ⟨?_, i1, i2, i3, i4⟩
    simpa [init_state, loop_state] using htr

/-- C2 counterexample: in a concrete run where one asset downloads and
the other fails, the name of the failed asset is recorded in the files
mapping of the persisted manifest even though its file never existed at the
storage location (it is absent from the final folder, and the asset was
counted failed). -/
theorem C2_manifest_invariant_cex :
    List.lookup "usb-tool.exe"
        (load_manifest (main_run (some mixed_release) []
          (ManifestFile.parsed emptyManifest) mixed_oracle "T").manifestFile).files =
      some { release := "v1", downloaded := "T" } ∧
    "usb-tool.exe" ∉ (main_run (some mixed_release) []
        (ManifestFile.parsed emptyManifest) mixed_oracle "T").fs ∧
    (main_run (some mixed_release) [] (ManifestFile.parsed emptyManifest)
        mixed_oracle "T").failed = 1 := by
  decide

/-- C2 amended: the guarantee holds only for assets the run counted
skipped or successful — every trace entry not classified failed has its
file present at the storage location at the end of the run; entries for
failed assets may be recorded in the manifest without the file existing. -/
theorem C2_manifest_invariant_amended (rel : Release) (fs0 : List String)
    (mf0 : ManifestFile) (oracle : String → Bool) (t : String) (p : Asset × Outcome)
    (hp : p ∈ (main_run (some rel) fs0 mf0 oracle t).trace)
    (ho : p.2 ≠ Outcome.failedO) :
    p.1.name ∈ (main_run (some rel) fs0 mf0 oracle t).fs := by
  by_cases hE : (exe_assets rel.assets).isEmpty = true
  · rw [main_run_empty rel fs0 mf0 oracle t hE] at hp
    simp at hp
  · have hE' : (exe_assets rel.assets).isEmpty = false := by simpa using hE
    rw [main_run_nonempty rel fs0 mf0 oracle t hE'] at hp ⊢
    exact (StInv_fold oracle (exe_assets rel.assets) (init_state fs0)
      (StInv_init fs0)).2.2.2.2 p hp ho

/-- Witness for the amended C2 at a concrete run: the successfully
the trace entry of the downloaded asset is not failed and its file is
present. -/
theorem C2_manifest_invariant_amended_witness :
    (({ name := "wifi-tool.exe", browser_download_url := "u-ok" },
        Outcome.downloadedO) : Asset × Outcome) ∈
      (main_run (some mixed_release) [] (ManifestFile.parsed emptyManifest)
        mixed_oracle "T").trace ∧
    (Outcome.downloadedO ≠ Outcome.failedO) ∧
    "wifi-tool.exe" ∈ (main_run (some mixed_release) []
      (ManifestFile.parsed emptyManifest) mixed_oracle "T").fs := by
  refine ⟨by decide, by decide, ?_⟩
  exact C2_manifest_invariant_amended mixed_release [] (ManifestFile.parsed emptyManifest)
    mixed_oracle "T"
    ({ name := "wifi-tool.exe", browser_download_url := "u-ok" }, Outcome.downloadedO)
    (by decide) (by decide)

theorem update_manifest_mem_tag (m : Manifest) (tag : String) (l : List Asset)
    (t : String) : tag ∈ (update_manifest m tag l t).downloaded_releases := by
  unfold update_manifest
  by_cases h : m.downloaded_releases.contains tag = true
  · rw [if_pos h]
    simpa using h
  · have h' : m.downloaded_releases.contains tag = false := by simpa using h
    rw [h']
    simp

theorem update_manifest_count_tag (m : Manifest) (tag : String) (l : List Asset)
    (t : String) :
    List.count tag (update_manifest m tag l t).downloaded_releases =
      max 1 (List.count tag m.downloaded_releases) := by
  unfold update_manifest
  by_cases h : m.downloaded_releases.contains tag = true
  · rw [if_pos h]
    have hmem : tag ∈ m.downloaded_releases := by simpa using h
    have hone : 1 ≤ List.count tag m.downloaded_releases :=
      List.one_le_count_iff.mpr hmem
    show List.count tag m.downloaded_releases = max 1 (List.count tag m.downloaded_releases)
    omega
  · have h' : m.downloaded_releases.contains tag = false := by simpa using h
    have hnm : tag ∉ m.downloaded_releases := by simpa using h
    rw [h']
    simp [List.count_append, List.count_eq_zero.mpr hnm]

theorem update_manifest_lookup (m : Manifest) (tag : String) (l : List Asset)
    (t : String) :
    ∀ a ∈ l, List.lookup a.name (update_manifest m tag l t).files =
      some { release := tag, downloaded := t } := by
  intro a ha
  exact lookup_of_covered _ _ _ (fold_covers l m.files ⟨tag, t⟩ a ha)

/-- C10: the manifest file is written iff `successful + skipped > 0`; in
that case the saved manifest is the loaded one updated with the release
tag (appended only when not already present, never duplicated) and a
files entry carrying the current tag and timestamp for every qualifying
asset; when `successful + skipped = 0` the persisted manifest file is
left exactly as it was. -/
theorem C10_manifest_update (rel : Release) (fs0 : List String) (mf0 : ManifestFile)
    (oracle : String → Bool) (t : String) :
    ((main_run (some rel) fs0 mf0 oracle t).successful +
          (main_run (some rel) fs0 mf0 oracle t).skipped = 0 →
        (main_run (some rel) fs0 mf0 oracle t).manifestFile = mf0) ∧
    (0 < (main_run (some rel) fs0 mf0 oracle t).successful +
          (main_run (some rel) fs0 mf0 oracle t).skipped →
        (main_run (some rel) fs0 mf0 oracle t).manifestFile =
          ManifestFile.parsed
            (update_manifest (load_manifest mf0) rel.tag_name
              (exe_assets rel.assets) t) ∧
        rel.tag_name ∈
          (update_manifest (load_manifest mf0) rel.tag_name
            (exe_assets rel.assets) t).downloaded_releases ∧
        List.count rel.tag_name
            (update_manifest (load_manifest mf0) rel.tag_name
              (exe_assets rel.assets) t).downloaded_releases =
          max 1 (List.count rel.tag_name (load_manifest mf0).downloaded_releases) ∧
        ∀ a ∈ exe_assets rel.assets,
          List.lookup a.name
              (update_manifest (load_manifest mf0) rel.tag_name
                (exe_assets rel.assets) t).files =
            some { release := rel.tag_name, downloaded := t }) := by
  by_cases hE : (exe_assets rel.assets).isEmpty = true
  · rw [main_run_empty rel fs0 mf0 oracle t hE]
    constructor
    · intro _
      rfl
    · intro h
      simp at h
  · have hE' : (exe_assets rel.assets).isEmpty = false := by simpa using hE
    have hs : (main_run (some rel) fs0 mf0 oracle t).successful =
        (loop_state rel fs0 oracle).successful := by
      rw [main_run_nonempty rel fs0 mf0 oracle t hE']
    have hk : (main_run (some rel) fs0 mf0 oracle t).skipped =
        (loop_state rel fs0 oracle).skipped := by
      rw [main_run_nonempty rel fs0 mf0 oracle t hE']
    have hm : (main_run (some rel) fs0 mf0 oracle t).manifestFile =
        (if (loop_state rel fs0 oracle).successful > 0 ||
            (loop_state rel fs0 oracle).skipped > 0 then
          ManifestFile.parsed
            (update_manifest (load_manifest mf0) rel.tag_name
              (exe_assets rel.assets) t)
        else mf0) := by
      rw [main_run_nonempty rel fs0 mf0 oracle t hE']
    rw [hs, hk, hm]
    constructor
    · intro h
      have hcond : (decide ((loop_state rel fs0 oracle).successful > 0) ||
          decide ((loop_state rel fs0 oracle).skipped > 0)) = false := by
        simp only [Bool.or_eq_false_iff, decide_eq_false_iff_not]
        omega
      exact if_neg (by simp [hcond])
    · intro h
      have hcond : (decide ((loop_state rel fs0 oracle).successful > 0) ||
          decide ((loop_state rel fs0 oracle).skipped > 0)) = true := by
        simp only [Bool.or_eq_true, decide_eq_true_eq]
        omega
      exact ⟨if_pos hcond, update_manifest_mem_tag _ _ _ _,
        update_manifest_count_tag _ _ _ _, update_manifest_lookup _ _ _ _⟩

/-- Witness for C10 at two concrete runs: one where the single asset
downloads (manifest written with tag and entry) and one where its
download fails (manifest file untouched). -/
theorem C10_manifest_update_witness :
    (0 < (main_run (some single_release) [] ManifestFile.absent
            (fun _ => true) "T").successful +
          (main_run (some single_release) [] ManifestFile.absent
            (fun _ => true) "T").skipped ∧
      ((main_run (some single_release) [] ManifestFile.absent
            (fun _ => true) "T").manifestFile =
          ManifestFile.parsed
            (update_manifest (load_manifest ManifestFile.absent)
              single_release.tag_name (exe_assets single_release.assets) "T") ∧
        single_release.tag_name ∈
          (update_manifest (load_manifest ManifestFile.absent)
            single_release.tag_name (exe_assets single_release.assets)
            "T").downloaded_releases ∧
        List.count single_release.tag_name
            (update_manifest (load_manifest ManifestFile.absent)
              single_release.tag_name (exe_assets single_release.assets)
              "T").downloaded_releases =
          max 1 (List.count single_release.tag_name
            (load_manifest ManifestFile.absent).downloaded_releases) ∧
        ∀ a ∈ exe_assets single_release.assets,
          List.lookup a.name
              (update_manifest (load_manifest ManifestFile.absent)
                single_release.tag_name (exe_assets single_release.assets)
                "T").files =
            some { release := single_release.tag_name, downloaded := "T" })) ∧
    ((main_run (some single_release) [] ManifestFile.absent
          (fun _ => false) "T").successful +
        (main_run (some single_release) [] ManifestFile.absent
          (fun _ => false) "T").skipped = 0 ∧
      (main_run (some single_release) [] ManifestFile.absent
          (fun _ => false) "T").manifestFile = ManifestFile.absent) :=
  ⟨⟨by decide,
    (C10_manifest_update single_release [] ManifestFile.absent
      (fun _ => true) "T").2 (by decide)⟩,
   ⟨by decide,
    (C10_manifest_update single_release [] ManifestFile.absent
      (fun _ => false) "T").1 (by decide)⟩⟩

/-- C1 counterexample: against a fixed two-asset release where one
download fails persistently, starting from an empty local state, the
second run reports `skipped = 1` while there are 2 qualifying assets,
and the persisted manifest after run 2 differs from the one after run 1
(the recorded timestamps are refreshed), refuting the claim for this
initial state. -/
theorem C1_idempotence_cex :
    (run_twice mixed_release [] (ManifestFile.parsed emptyManifest)
        mixed_oracle "T1" "T2").2.skipped = 1 ∧
    (exe_assets mixed_release.assets).length = 2 ∧
    (run_twice mixed_release [] (ManifestFile.parsed emptyManifest)
        mixed_oracle "T1" "T2").2.successful = 0 ∧
    (run_twice mixed_release [] (ManifestFile.parsed emptyManifest)
        mixed_oracle "T1" "T2").2.manifestFile ≠
      (run_twice mixed_release [] (ManifestFile.parsed emptyManifest)
        mixed_oracle "T1" "T2").1.manifestFile := by
  decide

/-- C1 amended: provided every download attempt succeeds and both runs
record the same timestamp, running the pipeline twice against an
unchanged release from any initial local state makes the second run
report `skipped` equal to the number of qualifying assets and
`successful = 0`, and leaves the persisted manifest after run 2 equal to
the one after run 1 (with differing timestamps the second run rewrites
the entries with its own timestamp; with failing downloads the assets
that failed are re-attempted rather than skipped). -/
theorem C1_idempotence_amended (rel : Release) (fs0 : List String)
    (mf0 : ManifestFile) (oracle : String → Bool) (t : String)
    (hor : ∀ u, oracle u = true) :
    (run_twice rel fs0 mf0 oracle t t).2.skipped = (exe_assets rel.assets).length ∧
    (run_twice rel fs0 mf0 oracle t t).2.successful = 0 ∧
    (run_twice rel fs0 mf0 oracle t t).2.manifestFile =
      (run_twice rel fs0 mf0 oracle t t).1.manifestFile := by
  by_cases hE : (exe_assets rel.assets).isEmpty = true
  · have hnil : exe_assets rel.assets = [] := by simpa using hE
    have h1 := main_run_empty rel fs0 mf0 oracle t hE
    have hfs : (main_run (some rel) fs0 mf0 oracle t).fs = fs0 := by rw [h1]
    have hmf : (main_run (some rel) fs0 mf0 oracle t).manifestFile = mf0 := by rw [h1]
    simp only [run_twice]
    rw [hfs, hmf, h1]
    simp [hnil]
  · have hE' : (exe_assets rel.assets).isEmpty = false := by simpa using hE
    obtain ⟨hcomp, hmf1⟩ := main_run_all_success rel fs0 mf0 oracle t hE' hor
    simp only [run_twice]
    rw [hmf1]
    obtain ⟨g1, g2, g3, g4⟩ := main_run_all_present rel
      (main_run (some rel) fs0 mf0 oracle t).fs
      (ManifestFile.parsed
        (update_manifest (load_manifest mf0) rel.tag_name (exe_assets rel.assets) t))
      oracle t hE' hcomp
    refine ⟨g1, g2, ?_⟩
    rw [g4]
    have hred : load_manifest (ManifestFile.parsed
        (update_manifest (load_manifest mf0) rel.tag_name
          (exe_assets rel.assets) t)) =
        update_manifest (load_manifest mf0) rel.tag_name (exe_assets rel.assets) t := rfl
    rw [hred, update_manifest_idem]

/-- Witness for the amended C1 at a concrete release with an always
succeeding download oracle and a shared timestamp. -/
theorem C1_idempotence_amended_witness :
    (∀ u : String, (fun _ : String => true) u = true) ∧
    ((run_twice mixed_release [] ManifestFile.absent (fun _ => true) "T" "T").2.skipped =
        (exe_assets mixed_release.assets).length ∧
      (run_twice mixed_release [] ManifestFile.absent (fun _ => true) "T" "T").2.successful = 0 ∧
      (run_twice mixed_release [] ManifestFile.absent (fun _ => true) "T" "T").2.manifestFile =
        (run_twice mixed_release [] ManifestFile.absent
          (fun _ => true) "T" "T").1.manifestFile) :=
  ⟨fun _ => rfl,
   C1_idempotence_amended mixed_release [] ManifestFile.absent
     (fun _ => true) "T" (fun _ => rfl)⟩
